import Mathlib

/-!
Verification of the content-addressed block storage core of the conserve
backup system, shallowly embedded from `src/blockdir.rs`, `src/report.rs`
and `src/copy_tree.rs`.

Bytes are modelled as `Nat` values, byte strings as `List Nat`.  The block
directory on disk is modelled as an explicit state (`BlockFs`): a root that
may or may not be listable, containing shard directories, each with a name,
a readability flag (whether `read_dir` on it succeeds) and a list of
directory entries.  Fallible Rust code returns an explicit result type in
which a Rust panic (`todo`, `unwrap` of an error, an unregistered counter)
is a distinguished outcome.
-/

namespace Conserve

/-- Error kinds of the crate.  `errors.rs` is not under `src/`; the kinds are
modelled from the spec (section 7), which lists exactly these. -/
inductive RErr where
  | createBlockDir
  | storeBlock (hash : String)
  | readBlock (path : String)
  | blockCorrupt (path actualHash : String)
  | listBlocks (path : String)
  | decompressErr (path : String)
  | storeFile (apath : String)
  | unsupportedPartialRead
deriving DecidableEq

/-- Outcome of a Rust function returning `Result<α, Error>`, with a
distinguished outcome for a panic (such as `todo` or `unwrap` on `Err`). -/
inductive RResult (α : Type) where
  | ok (a : α)
  | err (e : RErr)
  | panicked (msg : String)
deriving DecidableEq

/-- Outcome of a Rust function returning `std::io::Result<α>`; the io error
payload is opaque. -/
inductive IoResult (α : Type) where
  | ok (a : α)
  | ioErr
  | panicked (msg : String)
deriving DecidableEq

/-- Outcome of a counter increment: succeeds with the updated counter state,
or panics (`report.rs` panics on an unregistered counter name). -/
inductive CntResult (κ : Type) where
  | ok (c : κ)
  | panicked (msg : String)
deriving DecidableEq

def RResult.isOk {α : Type} : RResult α → Bool
  | .ok _ => true
  | _ => false

/-! ### Hasher (blockdir.rs, hash_bytes) -/

/-- Use the maximum 64-byte hash (`BLAKE_HASH_SIZE_BYTES` in blockdir.rs). -/
def BLAKE_HASH_SIZE_BYTES : Nat := 64

/-- `BLOCKDIR_FILE_NAME_LEN = BLAKE_HASH_SIZE_BYTES * 2`. -/
def BLOCKDIR_FILE_NAME_LEN : Nat := BLAKE_HASH_SIZE_BYTES * 2

/-- Take this many characters from the block hash to form the subdirectory
name (`SUBDIR_NAME_CHARS` in blockdir.rs). -/
def SUBDIR_NAME_CHARS : Nat := 3

/-- The `TMP_PREFIX` constant of blockdir.rs. -/
def tmpPfx : String := "tmp"

/-- One lowercase hexadecimal digit. -/
def hexDigit (n : Nat) : Char :=
  if n < 10 then Char.ofNat (48 + n) else Char.ofNat (87 + n)

/-- Lowercase hex encoding of a byte list (the `hex::encode` of the source). -/
def bytesToHex (bs : List Nat) : String :=
  ⟨(bs.map (fun b => [hexDigit (b / 16 % 16), hexDigit (b % 16)])).flatten⟩

/-- Modelled from the spec: the `blake2_rfc` crate is not part of this
repository.  The spec (section 4.1) requires a deterministic digest of
`BLAKE_HASH_SIZE_BYTES` (64) bytes; it is modelled as a simple deterministic
64-byte digest of the input. -/
def blakeDigest (s : List Nat) : List Nat :=
  (List.range BLAKE_HASH_SIZE_BYTES).map
    (fun i => s.foldl (fun a b => (a * 131 + b + 1) % 256) ((i * 37 + 11) % 256))

/-- `hash_bytes` of blockdir.rs: the lowercase hex encoding of the 64-byte
digest of the input. -/
def hash_bytes (in_buf : List Nat) : String :=
  bytesToHex (blakeDigest in_buf)

/-! ### Compressor (crate::compress::snappy) -/

/-- Modelled from the spec: `crate::compress::snappy` is not under `src/`.
The spec (section 4.2) requires a byte-exact reproducible framed codec;
it is modelled as a one-byte frame: marker byte 255 followed by the
payload. -/
def compressBytes (s : List Nat) : List Nat := 255 :: s

/-- Modelled from the spec: decompression of the framed form; a stream that
does not carry the frame marker is corrupt and fails with a distinct
error (`none`). -/
def decompressBytes : List Nat → Option (List Nat)
  | 255 :: rest => some rest
  | _ => none

/-! ### On-disk state of a block directory -/

/-- One directory entry inside a shard directory: a name, whether the entry
is a regular file, and (for files) its byte content. -/
structure DirEnt where
  name : String
  isFile : Bool
  content : List Nat
deriving DecidableEq

/-- One shard directory: its name, whether `read_dir` on it succeeds, and its
entries. -/
structure Shard where
  name : String
  readable : Bool
  entries : List DirEnt
deriving DecidableEq

/-- The block directory: whether listing the root succeeds, and the shard
directories under it.  Paths are modelled relative to the blockdir root. -/
structure BlockFs where
  rootReadable : Bool
  shards : List Shard
deriving DecidableEq

/-- Root-relative path of the blockdir root itself (`self.path`). -/
def rootPath : String := ""

/-- `Address` of blockdir.rs: which block, start offset, length. -/
structure Address where
  hash : String
  start : Nat
  len : Nat
deriving DecidableEq

/-- `Sizes`: uncompressed and compressed byte counts (crate type used by
blockdir.rs; u64 sizes modelled as Nat). -/
structure Sizes where
  uncompressed : Nat
  compressed : Nat
deriving DecidableEq

/-- `ValidateBlockDirStats` of blockdir.rs; both counters default to 0. -/
structure ValidateBlockDirStats where
  block_hash_wrong : Nat
  block_decompression_failed : Nat
deriving DecidableEq

/-! ### Primitive list/filesystem helpers -/

/-- Find the first entry with the given name in a directory listing. -/
def findEnt : List DirEnt → String → Option DirEnt
  | [], _ => none
  | e :: rest, n => if e.name = n then some e else findEnt rest n

/-- Write a file: replace the first entry with the given name, or append a
fresh entry.  Models creating or atomically replacing a file at a path. -/
def upsertEntry : List DirEnt → String → List Nat → List DirEnt
  | [], n, c => [⟨n, true, c⟩]
  | e :: rest, n, c =>
      if e.name = n then ⟨n, true, c⟩ :: rest else e :: upsertEntry rest n c

/-- Delete the first entry with the given name (models removing a file). -/
def removeFirstEntry : List DirEnt → String → List DirEnt
  | [], _ => []
  | e :: rest, n => if e.name = n then rest else e :: removeFirstEntry rest n

/-- Find the first shard with the given name. -/
def findShardL : List Shard → String → Option Shard
  | [], _ => none
  | sd :: rest, n => if sd.name = n then some sd else findShardL rest n

def findShard (fs : BlockFs) (n : String) : Option Shard :=
  findShardL fs.shards n

/-- Apply `f` to the first shard with the given name, if any. -/
def modifyFirst : List Shard → String → (Shard → Shard) → List Shard
  | [], _, _ => []
  | sd :: rest, n, f =>
      if sd.name = n then f sd :: rest else sd :: modifyFirst rest n f

/-- `super::io::ensure_dir_exists` (crate helper; not under `src/`): create
the directory if missing, succeed if it already exists. -/
def ensure_dir_exists (fs : BlockFs) (d : String) : BlockFs :=
  match findShard fs d with
  | some _ => fs
  | none => { fs with shards := fs.shards ++ [⟨d, true, []⟩] }

/-- Create or atomically replace the file `n` in shard `d` with content `c`. -/
def writeFileInShard (fs : BlockFs) (d n : String) (c : List Nat) : BlockFs :=
  { fs with shards :=
      modifyFirst fs.shards d (fun sd => { sd with entries := upsertEntry sd.entries n c }) }

/-- Delete the file `n` from shard `d`. -/
def removeFileInShard (fs : BlockFs) (d n : String) : BlockFs :=
  { fs with shards :=
      modifyFirst fs.shards d (fun sd => { sd with entries := removeFirstEntry sd.entries n }) }

/-- Look up the directory entry at path `d/n`. -/
def lookupEntry (fs : BlockFs) (d n : String) : Option DirEnt :=
  match findShard fs d with
  | some sd => findEnt sd.entries n
  | none => none

/-! ### String helpers (char-level models of the string operations used) -/

/-- `str::starts_with`, modelled on the character list. -/
def strStarts (s p : String) : Bool :=
  s.toList.take p.toList.length = p.toList

/-- `block_name_to_subdirectory` of blockdir.rs: the first
`SUBDIR_NAME_CHARS` characters of the block hash. -/
def block_name_to_subdirectory (block_hash : String) : String :=
  ⟨block_hash.toList.take SUBDIR_NAME_CHARS⟩

/-- `BlockDir::subdir_for`: the shard directory for a hash (root-relative). -/
def subdir_for (hash_hex : String) : String :=
  block_name_to_subdirectory hash_hex

/-- `BlockDir::path_for_file`: the root-relative path of the block file. -/
def path_for_file (hash_hex : String) : String :=
  subdir_for hash_hex ++ "/" ++ hash_hex

/-! ### Counters

The spec (sections 1 and 6) treats the event-counter subsystem as an external
collaborator with interface `increment(name, delta)`.  The operations below
are parametric in that collaborator; `absCounters` is the contract-level
instance (every increment succeeds), `reportCounters` further below is the
concrete `Report` of `report.rs`. -/

abbrev Counters := List (String × Nat)

/-- Add `d` to counter `n`, creating it at 0 if absent. -/
def incCounter : Counters → String → Nat → Counters
  | [], n, d => [(n, d)]
  | (m, v) :: rest, n, d =>
      if m = n then (m, v + d) :: rest else (m, v) :: incCounter rest n d

/-- Read a counter (0 when absent). -/
def getCounter : Counters → String → Nat
  | [], _ => 0
  | (m, v) :: rest, n => if m = n then v else getCounter rest n

/-- The counter collaborator interface consumed by the core. -/
structure CounterIface (κ : Type) where
  inc : κ → String → Nat → CntResult κ

/-- Contract-level counter collaborator: every increment succeeds. -/
def absCounters : CounterIface Counters :=
  ⟨fun c n d => .ok (incCounter c n d)⟩

/-! ### Report (report.rs) -/

/-- `KNOWN_COUNTERS` of report.rs, verbatim. -/
def KNOWN_COUNTERS : List String := [
  "backup.file.count",
  "backup.skipped.unsupported_file_kind",
  "block.read.count",
  "block.read.corrupt",
  "block.read.misplaced",
  "block.write.already_present",
  "block.write.compressed_bytes",
  "block.write.count",
  "block.write.uncompressed_bytes",
  "index.write.compressed_bytes",
  "index.write.uncompressed_bytes",
  "index.write.hunks",
  "source.selected.count",
  "source.skipped.unsupported_file_kind",
  "source.visited.directories.count"]

/-- `Report` of report.rs: a map from counter names to counts, modelled as an
association list. -/
structure Report where
  count : List (String × Nat)
deriving DecidableEq

/-- Find a counter value in the report map. -/
def lookupCount : List (String × Nat) → String → Option Nat
  | [], _ => none
  | (m, v) :: rest, n => if m = n then some v else lookupCount rest n

/-- Add `d` to an existing counter in the report map. -/
def setCount : List (String × Nat) → String → Nat → List (String × Nat)
  | [], _, _ => []
  | (m, v) :: rest, n, d =>
      if m = n then (m, v + d) :: rest else (m, v) :: setCount rest n d

/-- `Report::new`: entries are created from the list of known names. -/
def Report.new : Report :=
  ⟨KNOWN_COUNTERS.map (fun n => (n, 0))⟩

/-- `Report::increment`: add `delta` to a registered counter; an unregistered
counter name panics. -/
def Report.increment (r : Report) (counter_name : String) (delta : Nat) :
    CntResult Report :=
  match lookupCount r.count counter_name with
  | some _ => .ok ⟨setCount r.count counter_name delta⟩
  | none => .panicked ("unregistered counter")

/-- `Report::get_count`: a counter that has not been updated reads as 0. -/
def Report.get_count (r : Report) (counter_name : String) : Nat :=
  (lookupCount r.count counter_name).getD 0

/-- The counter collaborator backed by the concrete `Report` of report.rs. -/
def reportCounters : CounterIface Report :=
  ⟨fun r n d => r.increment n d⟩

/-! ### BlockDir write path (compress_and_store) -/

/-- The temp file created by the tempfile builder; its random suffix is
modelled as a fixed name with the `tmp` pre-set start. -/
def tmpName : String := "tmp0"

/-- Outcome of the OS rename underlying the tempfile `persist` call.  The
source deliberately uses plain `persist` (its comment: not the noclobber
variant, to avoid `link` on Unix), and plain `persist` atomically replaces
an existing destination; so an existing destination file does not by itself
produce an error.  Environmental I/O failures of the rename are modelled as
injected outcomes. -/
inductive PersistOutcome where
  | ok
  | errAlreadyExists
  | errOther
deriving DecidableEq

/-- The `ui::problem` line emitted in the already-exists branch of
`compress_and_store` (format arguments elided). -/
def lateDetectMsg : String := "Unexpected late detection of existing block"

/-- Result bundle of `compress_and_store`: the `io::Result<u64>` value, the
filesystem, the counter collaborator state and the `ui::problem` lines. -/
structure StoreOut (κ : Type) where
  res : IoResult Nat
  fs : BlockFs
  cnt : κ
  problems : List String
deriving DecidableEq

/-- `BlockDir::compress_and_store` of blockdir.rs.

Steps, as in the source: derive the shard; `ensure_dir_exists` on it; create
a `tmp`-named temp file there; compress the input into it; `persist` (plain,
clobbering rename) onto the final path.  If persist fails with AlreadyExists,
emit a `ui::problem`, count `block.already_present`, close (delete) the temp
file and succeed; any other persist error is returned (the dropped temp file
is removed). -/
def compress_and_store {κ : Type} (ci : CounterIface κ) (env : PersistOutcome)
    (fs : BlockFs) (in_buf : List Nat) (hex_hash : String) (cnt : κ) :
    StoreOut κ :=
  let d := subdir_for hex_hash
  let fs1 := ensure_dir_exists fs d
  let comp := compressBytes in_buf
  let comp_len := comp.length
  let fsT := writeFileInShard fs1 d tmpName comp
  match env with
  | .ok =>
      -- plain persist: the rename atomically replaces any existing destination
      ⟨.ok comp_len, writeFileInShard (removeFileInShard fsT d tmpName) d hex_hash comp,
        cnt, []⟩
  | .errAlreadyExists =>
      -- perhaps simultaneously created by another thread; not really an error
      match ci.inc cnt ("block.already_present") 1 with
      | .ok cnt2 =>
          ⟨.ok comp_len, removeFileInShard fsT d tmpName, cnt2, [lateDetectMsg]⟩
      | .panicked m => ⟨.panicked m, fsT, cnt, [lateDetectMsg]⟩
  | .errOther =>
      ⟨.ioErr, removeFileInShard fsT d tmpName, cnt, []⟩

/-! ### BlockDir read path -/

/-- `BlockDir::contains`: a metadata probe of the block path; NotFound means
false, an existing entry of any kind means true. -/
def contains (fs : BlockFs) (hash : String) : RResult Bool × BlockFs :=
  match lookupEntry fs (block_name_to_subdirectory hash) hash with
  | some _ => (.ok true, fs)
  | none => (.ok false, fs)

/-- The `ui::show_error` line when reading a block fails. -/
def readErrMsg : String := "error reading block"

/-- `BlockDir::get_block_content`: resolve the path, decompress the file,
build `Sizes` from the decompressed length and the on-disk length.  Open or
decompress failures are wrapped as a ReadBlock error (with a `ui` line), as
in the source. -/
def get_block_content (fs : BlockFs) (hash : String) :
    RResult (List Nat × Sizes) × BlockFs × List String :=
  let path := path_for_file hash
  match lookupEntry fs (block_name_to_subdirectory hash) hash with
  | some e =>
      if e.isFile then
        match decompressBytes e.content with
        | some d => (.ok (d, ⟨d.length, e.content.length⟩), fs, [])
        | none => (.err (.readBlock path), fs, [readErrMsg])
      else (.err (.readBlock path), fs, [readErrMsg])
  | none => (.err (.readBlock path), fs, [readErrMsg])

/-- The message of the `todo` panics in `BlockDir::get`. -/
def todoMsg : String :=
  "not implemented: Reading parts of blocks is not supported (or expected) yet"

/-- `BlockDir::get`: a nonzero `start` hits a `todo` panic; otherwise read the
whole block, and a `len` different from the decompressed length also hits a
`todo` panic. -/
def get (fs : BlockFs) (addr : Address) :
    RResult (List Nat × Sizes) × BlockFs × List String :=
  if addr.start ≠ 0 then (.panicked todoMsg, fs, [])
  else
    match get_block_content fs addr.hash with
    | (.ok (d, sizes), fs1, pr) =>
        if d.length ≠ addr.len then (.panicked todoMsg, fs1, pr)
        else (.ok (d, sizes), fs1, pr)
    | other => other

/-! ### Enumeration -/

/-- `BlockDir::subdirs`: list the root; keep subdirectories whose name has
exactly `SUBDIR_NAME_CHARS` characters, emitting a `ui::problem` for every
other subdirectory.  `none` models an I/O error listing the root. -/
def subdirs (fs : BlockFs) : Option (List String) × BlockFs × List String :=
  if fs.rootReadable then
    let ds := fs.shards.map (fun sd => sd.name)
    let kept := ds.filter (fun dd => dd.length = SUBDIR_NAME_CHARS)
    let warns := (ds.filter (fun dd => ¬ dd.length = SUBDIR_NAME_CHARS)).map
      (fun dd => "unexpected subdirectory in blockdir: " ++ dd)
    (some kept, fs, warns)
  else (none, fs, [])

/-- `fs::read_dir` on one shard directory: `none` models an I/O error. -/
def read_shard_dir (fs : BlockFs) (s : String) : Option (List DirEnt) :=
  match findShard fs s with
  | some sd => if sd.readable then some sd.entries else none
  | none => none

/-- The filter of `iter_block_dir_entries`: regular file, not `tmp`-named,
name of exactly `BLOCKDIR_FILE_NAME_LEN` characters. -/
def isBlockFileEntry (e : DirEnt) : Bool :=
  e.isFile && !(strStarts e.name tmpPfx) && (e.name.length = BLOCKDIR_FILE_NAME_LEN)

/-- The panic message of `unwrap` on an `Err` value. -/
def unwrapMsg : String := "called unwrap on an Err value"

/-- `BlockDir::iter_block_dir_entries`: an error listing the root becomes a
ListBlocks error; the per-shard `fs::read_dir` results are unwrapped, so an
error opening any kept shard panics; entries are filtered per shard. -/
def iter_block_dir_entries (fs : BlockFs) :
    RResult (List DirEnt) × BlockFs × List String :=
  match subdirs fs with
  | (none, fs1, w) => (.err (.listBlocks rootPath), fs1, w)
  | (some subs, fs1, w) =>
      if subs.all (fun s => (read_shard_dir fs1 s).isSome) then
        (.ok ((subs.map (fun s =>
          ((read_shard_dir fs1 s).getD []).filter isBlockFileEntry)).flatten), fs1, w)
      else (.panicked unwrapMsg, fs1, w)

/-- `BlockDir::block_names`: the names of the enumerated entries. -/
def block_names (fs : BlockFs) : RResult (List String) × BlockFs × List String :=
  match iter_block_dir_entries fs with
  | (.ok es, fs1, w) => (.ok (es.map (fun e => e.name)), fs1, w)
  | (.err e, fs1, w) => (.err e, fs1, w)
  | (.panicked m, fs1, w) => (.panicked m, fs1, w)

/-- `BlockDir::block_names_and_sizes`: names with on-disk (compressed) sizes. -/
def block_names_and_sizes (fs : BlockFs) :
    RResult (List (String × Nat)) × BlockFs × List String :=
  match iter_block_dir_entries fs with
  | (.ok es, fs1, w) => (.ok (es.map (fun e => (e.name, e.content.length))), fs1, w)
  | (.err e, fs1, w) => (.err e, fs1, w)
  | (.panicked m, fs1, w) => (.panicked m, fs1, w)

/-! ### Validation -/

/-- The `ui::problem` line for a block with a wrong decompressed hash. -/
def blockWrongMsg : String := "Block file has wrong decompressed hash"

/-- `BlockDir::validate_block`: read the block back, recompute the hash of
the decompressed bytes; a mismatch increments the local stats but then
returns a BlockCorrupt error, discarding them (as in the source); a match
returns the default stats. -/
def validate_block (fs : BlockFs) (hash : String) :
    RResult ValidateBlockDirStats × List String :=
  match get_block_content fs hash with
  | (.ok (d, _), _, pr) =>
      let actual_hash := hash_bytes d
      if actual_hash ≠ hash then
        (.err (.blockCorrupt (path_for_file hash) actual_hash), pr ++ [blockWrongMsg])
      else (.ok ⟨0, 0⟩, pr)
  | (.err e, _, pr) => (.err e, pr)
  | (.panicked m, _, pr) => (.panicked m, pr)

/-- The `try_for_each` over all blocks of `BlockDir::validate`.  The rayon
fan-out is data-parallel with commutative effects; which failing block
surfaces first is arbitrary, modelled here as list order. -/
def validate_blocks_pass (fs : BlockFs) :
    List (String × Nat) → RResult Unit × List String
  | [] => (.ok (), [])
  | (bn, _bsize) :: rest =>
      match validate_block fs bn with
      | (.ok _, pr) =>
          match validate_blocks_pass fs rest with
          | (r, pr2) => (r, pr ++ pr2)
      | (.err e, pr) => (.err e, pr)
      | (.panicked m, pr) => (.panicked m, pr)

/-- `BlockDir::validate`: collect names and sizes, check every block, and
return the default-constructed stats (the source never updates `stats`;
accumulation is a TODO there).  The first per-block failure is returned as
an error. -/
def validate (fs : BlockFs) :
    RResult ValidateBlockDirStats × BlockFs × List String :=
  let stats : ValidateBlockDirStats := ⟨0, 0⟩
  match block_names_and_sizes fs with
  | (.ok bns, fs1, pr) =>
      match validate_blocks_pass fs1 bns with
      | (.ok _, pr2) => (.ok stats, fs1, pr ++ pr2)
      | (.err e, pr2) => (.err e, fs1, pr ++ pr2)
      | (.panicked m, pr2) => (.panicked m, fs1, pr ++ pr2)
  | (.err e, fs1, pr) => (.err e, fs1, pr)
  | (.panicked m, fs1, pr) => (.panicked m, fs1, pr)

/-! ### StoreFiles (ingestion) -/

/-- Modelled from the spec: `MAX_BLOCK_SIZE` is a crate constant not under
`src/`; the spec (section 4.1) says implementations should pick 1 MiB. -/
def MAX_BLOCK_SIZE : Nat := 1048576

/-- Result bundle of `store_file_content`. -/
structure StoreFilesOut (κ : Type) where
  res : RResult (List Address × Sizes)
  fs : BlockFs
  cnt : κ
  problems : List String
deriving DecidableEq

/-- A persist environment in which every rename succeeds (indexed by the
loop iteration of the ingestion loop). -/
def noErrEnv : Nat → PersistOutcome := fun _ => .ok

/-- The read/hash/store loop of `StoreFiles::store_file_content`.  The input
stream is a byte list; each `read` fills the `MAX_BLOCK_SIZE` buffer as far
as the stream allows (a local file read), a 0-length read ends the loop.
The first argument is fuel, structurally decreasing; every pass consumes at
least one input byte, so fuel equal to the input length always suffices and
the 0-fuel case with unread input is unreachable (it ends the loop the same
way EOF does). -/
def store_loop {κ : Type} (ci : CounterIface κ) (env : Nat → PersistOutcome) :
    Nat → Nat → BlockFs → κ → List Nat → List Address → Sizes → List String →
    StoreFilesOut κ
  | _, _, fs, cnt, [], addresses, sizes, probs =>
      ⟨.ok (addresses, sizes), fs, cnt, probs⟩
  | 0, _, fs, cnt, _ :: _, addresses, sizes, probs =>
      ⟨.ok (addresses, sizes), fs, cnt, probs⟩
  | fuel + 1, k, fs, cnt, b :: rest, addresses, sizes, probs =>
      let input := b :: rest
      let block_data := input.take MAX_BLOCK_SIZE
      let read_len := block_data.length
      let block_hash := hash_bytes block_data
      match contains fs block_hash with
      | (.ok true, fs1) =>
          match ci.inc cnt ("block.already_present") 1 with
          | .ok cnt1 =>
              store_loop ci env fuel (k + 1) fs1 cnt1 (input.drop MAX_BLOCK_SIZE)
                (addresses ++ [⟨block_hash, 0, read_len⟩])
                { sizes with uncompressed := sizes.uncompressed + read_len } probs
          | .panicked m => ⟨.panicked m, fs1, cnt, probs⟩
      | (.ok false, fs1) =>
          match compress_and_store ci (env k) fs1 block_data block_hash cnt with
          | ⟨.ok comp_len, fs2, cnt1, pr⟩ =>
              match ci.inc cnt1 ("block.write") 1 with
              | .ok cnt2 =>
                  store_loop ci env fuel (k + 1) fs2 cnt2 (input.drop MAX_BLOCK_SIZE)
                    (addresses ++ [⟨block_hash, 0, read_len⟩])
                    ⟨sizes.uncompressed + read_len, sizes.compressed + comp_len⟩
                    (probs ++ pr)
              | .panicked m => ⟨.panicked m, fs2, cnt1, probs ++ pr⟩
          | ⟨.ioErr, fs2, cnt1, pr⟩ =>
              ⟨.err (.storeBlock block_hash), fs2, cnt1, probs ++ pr⟩
          | ⟨.panicked m, fs2, cnt1, pr⟩ => ⟨.panicked m, fs2, cnt1, probs ++ pr⟩
      | (.err e, fs1) => ⟨.err e, fs1, cnt, probs⟩
      | (.panicked m, fs1) => ⟨.panicked m, fs1, cnt, probs⟩

/-- `StoreFiles::store_file_content`: run the ingestion loop, then classify
the file by address count (0 empty, 1 medium, more large) and bump the
matching counter. -/
def store_file_content {κ : Type} (ci : CounterIface κ) (env : Nat → PersistOutcome)
    (fs : BlockFs) (cnt : κ) (input : List Nat) : StoreFilesOut κ :=
  match store_loop ci env input.length 0 fs cnt input [] ⟨0, 0⟩ [] with
  | ⟨.ok (addresses, sizes), fs1, cnt1, probs⟩ =>
      let cname := match addresses.length with
        | 0 => "file.empty"
        | 1 => "file.medium"
        | _ => "file.large"
      match ci.inc cnt1 cname 1 with
      | .ok cnt2 => ⟨.ok (addresses, sizes), fs1, cnt2, probs⟩
      | .panicked m => ⟨.panicked m, fs1, cnt1, probs⟩
  | out => out

/-- The address list of a successful `store_file_content` call. -/
def resultAddresses {κ : Type} (o : StoreFilesOut κ) : Option (List Address) :=
  match o.res with
  | .ok (addresses, _) => some addresses
  | _ => none

/-! ### copy_tree subtree filter (copy_tree.rs) -/

/-- Rust `str::split` on one separator character, on the character list:
`""` gives one empty piece, `"a/b"` gives the pieces between separators. -/
def splitOnChar (c : Char) : List Char → List (List Char)
  | [] => [[]]
  | a :: rest =>
      let r := splitOnChar c rest
      if a = c then [] :: r
      else
        match r with
        | h :: t => (a :: h) :: t
        | [] => [[a]]

/-- `split('/')` of a path, each piece as a string. -/
def splitSlash (s : String) : List String :=
  (splitOnChar '/' s.toList).map (fun l => ⟨l⟩)

/-- The matching loop of the copy_tree subtree filter:
`for (i, _) in target_tree.iter().enumerate() { if target_tree[i].eq(subtree[i]) { matched += 1 } }`.
An index access `subtree[i]` that is out of range would panic, modelled as
`none`. -/
def matchedLoop (target_tree subtree : List String) (matched : Nat) :
    List Nat → Option Nat
  | [] => some matched
  | i :: is =>
      match subtree.get? i with
      | none => none
      | some sv =>
          matchedLoop target_tree subtree
            (if target_tree.get? i = some sv then matched + 1 else matched) is

/-- The per-entry subtree selection of `copy_tree` (copy_tree.rs): an empty
target selects everything; otherwise the matching loop runs only when the
entry path has at least as many components as the target, and the entry is
selected when every target component matched.  `none` models an
out-of-range index panic inside the loop. -/
def to_be_copied (target : String) (apath : String) : Option Bool :=
  if target = "" then some true
  else
    let target_tree := splitSlash target
    let subtree := splitSlash apath
    if subtree.length ≥ target_tree.length then
      match matchedLoop target_tree subtree 0 (List.range target_tree.length) with
      | none => none
      | some matched => some (matched = target_tree.length)
    else some false

/-! ### Freshness of the temp name and concrete states -/

/-- No shard of the state already holds an entry with the temp file name
(the tempfile builder guarantees a fresh random name). -/
def NoTmp (fs : BlockFs) : Prop :=
  ∀ sd ∈ fs.shards, findEnt sd.entries tmpName = none

/-- An empty block directory. -/
def emptyFs : BlockFs := ⟨true, []⟩

/-- A block directory holding one correctly stored block: the compressed
form of the bytes `[104, 105]` under their hash, in the right shard. -/
def goodFs : BlockFs :=
  ⟨true, [⟨subdir_for (hash_bytes [104, 105]), true,
    [⟨hash_bytes [104, 105], true, compressBytes [104, 105]⟩]⟩]⟩

/-- A block directory whose single block file has been tampered with: the
file is still named `hash_bytes [104, 105]` but its contents decompress to
`[104, 104]` (one byte flipped). -/
def tamperedFs : BlockFs :=
  ⟨true, [⟨subdir_for (hash_bytes [104, 105]), true,
    [⟨hash_bytes [104, 105], true, compressBytes [104, 104]⟩]⟩]⟩

/-- A block directory already holding a block file named `hash_bytes [42]`
whose contents are `[255, 1]`, different from the compressed form of
`[42]`. -/
def preExistingFs : BlockFs :=
  ⟨true, [⟨subdir_for (hash_bytes [42]), true,
    [⟨hash_bytes [42], true, [255, 1]⟩]⟩]⟩

/-- A block directory with one well-formed shard (holding a proper block and
a `tmp`-named in-flight file) and one unexpected two-character
subdirectory. -/
def enumExampleFs : BlockFs :=
  ⟨true, [⟨subdir_for (hash_bytes [104, 105]), true,
           [⟨hash_bytes [104, 105], true, compressBytes [104, 105]⟩,
            ⟨"tmp123", true, [1, 2]⟩]⟩,
          ⟨"zz", true, []⟩]⟩

/-! ## Helper lemmas -/

theorem findEnt_upsertEntry_self (es : List DirEnt) (n : String) (c : List Nat) :
    findEnt (upsertEntry es n c) n = some ⟨n, true, c⟩ := by
  induction es with
  | nil => simp [upsertEntry, findEnt]
  | cons e rest ih =>
      by_cases h : e.name = n
      · simp [upsertEntry, h, findEnt]
      · simp [upsertEntry, h, findEnt, ih]

theorem upsertEntry_of_not_found (es : List DirEnt) (n : String) (c : List Nat)
    (h : findEnt es n = none) : upsertEntry es n c = es ++ [⟨n, true, c⟩] := by
  induction es with
  | nil => simp [upsertEntry]
  | cons e rest ih =>
      by_cases he : e.name = n
      · simp [findEnt, he] at h
      · simp [findEnt, he] at h
        simp [upsertEntry, he, ih h]

theorem removeFirstEntry_append_self (es : List DirEnt) (n : String) (x : DirEnt)
    (hx : x.name = n) (h : findEnt es n = none) :
    removeFirstEntry (es ++ [x]) n = es := by
  induction es with
  | nil => simp [removeFirstEntry, hx]
  | cons e rest ih =>
      by_cases he : e.name = n
      · simp [findEnt, he] at h
      · simp [findEnt, he] at h
        simp [removeFirstEntry, he, ih h]

theorem findShardL_mem (ss : List Shard) (n : String) (sd : Shard)
    (h : findShardL ss n = some sd) : sd ∈ ss ∧ sd.name = n := by
  induction ss with
  | nil => simp [findShardL] at h
  | cons s rest ih =>
      by_cases hs : s.name = n
      · simp [findShardL, hs] at h
        subst h
        exact ⟨List.mem_cons_self _ _, hs⟩
      · simp [findShardL, hs] at h
        rcases ih h with ⟨h1, h2⟩
        exact ⟨List.mem_cons_of_mem _ h1, h2⟩

theorem findShardL_isSome_of_name_mem (ss : List Shard) (n : String)
    (h : n ∈ ss.map (fun sd => sd.name)) : (findShardL ss n).isSome := by
  induction ss with
  | nil => simp at h
  | cons s rest ih =>
      by_cases hs : s.name = n
      · simp [findShardL, hs]
      · simp [findShardL, hs]
        simp at h
        rcases h with h | h
        · exact absurd h.symm hs
        · exact ih (by simpa using h)

theorem findShardL_eq_of_nodup (ss : List Shard) (sd : Shard)
    (hnd : (ss.map (fun s => s.name)).Nodup) (hmem : sd ∈ ss) :
    findShardL ss sd.name = some sd := by
  induction ss with
  | nil => simp at hmem
  | cons s rest ih =>
      simp only [List.map_cons, List.nodup_cons] at hnd
      rcases List.mem_cons.mp hmem with rfl | hmem'
      · simp [findShardL]
      · have hne : s.name ≠ sd.name := by
          intro he
          exact hnd.1 (he ▸ List.mem_map.mpr ⟨sd, hmem', rfl⟩)
        simp [findShardL, hne, ih hnd.2 hmem']

theorem modifyFirst_findShardL (ss : List Shard) (n : String) (f : Shard → Shard)
    (hf : ∀ sd, (f sd).name = sd.name) :
    findShardL (modifyFirst ss n f) n = (findShardL ss n).map f := by
  induction ss with
  | nil => simp [modifyFirst, findShardL]
  | cons s rest ih =>
      by_cases hs : s.name = n
      · simp [modifyFirst, hs, findShardL, hf s]
      · simp [modifyFirst, hs, findShardL, ih]

theorem modifyFirst_modifyFirst (ss : List Shard) (n : String) (f g : Shard → Shard)
    (hf : ∀ sd, (f sd).name = sd.name) :
    modifyFirst (modifyFirst ss n f) n g = modifyFirst ss n (fun sd => g (f sd)) := by
  induction ss with
  | nil => simp [modifyFirst]
  | cons s rest ih =>
      by_cases hs : s.name = n
      · simp [modifyFirst, hs, hf s]
      · simp [modifyFirst, hs, ih]

theorem modifyFirst_eq_of_fix (ss : List Shard) (n : String) (h : Shard → Shard)
    (sd : Shard) (hfind : findShardL ss n = some sd) (hfix : h sd = sd) :
    modifyFirst ss n h = ss := by
  induction ss with
  | nil => simp [findShardL] at hfind
  | cons s rest ih =>
      by_cases hs : s.name = n
      · simp [findShardL, hs] at hfind
        subst hfind
        simp [modifyFirst, hs, hfix]
      · simp [findShardL, hs] at hfind
        simp [modifyFirst, hs, ih hfind]

theorem findShard_ensure (fs : BlockFs) (d : String) :
    ∃ sd, findShard (ensure_dir_exists fs d) d = some sd ∧ sd.name = d ∧
      (NoTmp fs → findEnt sd.entries tmpName = none) ∧ sd ∈ (ensure_dir_exists fs d).shards := by
  unfold ensure_dir_exists
  cases hf : findShard fs d with
  | some sd =>
      rcases findShardL_mem _ _ _ hf with ⟨hmem, hname⟩
      exact ⟨sd, hf, hname, fun hnt => hnt sd hmem, hmem⟩
  | none =>
      refine ⟨⟨d, true, []⟩, ?_, rfl, fun _ => rfl, ?_⟩
      · show findShardL (fs.shards ++ [⟨d, true, []⟩]) d = _
        have : ∀ ss : List Shard, findShardL ss d = none →
            findShardL (ss ++ [⟨d, true, []⟩]) d = some ⟨d, true, []⟩ := by
          intro ss
          induction ss with
          | nil => intro _; simp [findShardL]
          | cons s rest ih =>
              intro hn
              by_cases hs : s.name = d
              · simp [findShardL, hs] at hn
              · simp [findShardL, hs] at hn ⊢
                exact ih hn
        exact this fs.shards hf
      · simp

theorem getCounter_incCounter_self (c : Counters) (n : String) (d : Nat) :
    getCounter (incCounter c n d) n = getCounter c n + d := by
  induction c with
  | nil => simp [incCounter, getCounter]
  | cons p rest ih =>
      rcases p with ⟨m, v⟩
      by_cases hm : m = n
      · simp [incCounter, hm, getCounter]
      · simp [incCounter, hm, getCounter, ih]

/-- After a successful (plain, clobbering) persist, the final path holds the
compressed input, whatever was there before. -/
theorem lookup_after_store {κ : Type} (ci : CounterIface κ) (fs : BlockFs)
    (buf : List Nat) (h : String) (cnt : κ) :
    lookupEntry (compress_and_store ci .ok fs buf h cnt).fs (subdir_for h) h
      = some ⟨h, true, compressBytes buf⟩ := by
  rcases findShard_ensure fs (subdir_for h) with ⟨sd0, hfind, _hname, _hnt, _hmem⟩
  unfold compress_and_store
  simp only [writeFileInShard, removeFileInShard, lookupEntry, findShard]
  rw [modifyFirst_findShardL _ _
    (fun sd => { sd with entries := upsertEntry sd.entries h (compressBytes buf) })
    (fun _ => rfl)]
  rw [modifyFirst_findShardL _ _
    (fun sd => { sd with entries := removeFirstEntry sd.entries tmpName })
    (fun _ => rfl)]
  rw [modifyFirst_findShardL _ _
    (fun sd => { sd with entries := upsertEntry sd.entries tmpName (compressBytes buf) })
    (fun _ => rfl)]
  rw [show findShardL (ensure_dir_exists fs (subdir_for h)).shards (subdir_for h)
      = some sd0 from hfind]
  simp [findEnt_upsertEntry_self]

/-- Creating the shard directory preserves freshness of the temp name. -/
theorem noTmp_ensure (fs : BlockFs) (d : String) (hnt : NoTmp fs) :
    NoTmp (ensure_dir_exists fs d) := by
  unfold ensure_dir_exists
  cases hf : findShard fs d with
  | some sd => exact hnt
  | none =>
      intro sd hsd
      simp only [List.mem_append, List.mem_singleton] at hsd
      rcases hsd with hsd | rfl
      · exact hnt sd hsd
      · rfl

/-- In the already-exists branch the temp file is deleted again, so the
filesystem ends exactly as `ensure_dir_exists` left it: nothing is
overwritten and no temp file remains. -/
theorem already_exists_branch_fs (ci : CounterIface Counters) (fs : BlockFs)
    (buf : List Nat) (h : String) (cnt : Counters) (hfresh : NoTmp fs)
    (hci : ci = absCounters) :
    (compress_and_store ci .errAlreadyExists fs buf h cnt).fs
      = ensure_dir_exists fs (subdir_for h) := by
  subst hci
  rcases findShard_ensure fs (subdir_for h) with ⟨sd0, hfind, _hname, hnt0, _hmem⟩
  have hf0 : findEnt sd0.entries tmpName = none := hnt0 hfresh
  unfold compress_and_store
  simp only [absCounters, writeFileInShard, removeFileInShard]
  rw [modifyFirst_modifyFirst _ _
    (fun sd => { sd with entries := upsertEntry sd.entries tmpName (compressBytes buf) })
    (fun sd => { sd with entries := removeFirstEntry sd.entries tmpName })
    (fun _ => rfl)]
  have hfix :
      (fun sd => ({ sd with entries := removeFirstEntry sd.entries tmpName } : Shard))
        ((fun sd => ({ sd with entries := upsertEntry sd.entries tmpName (compressBytes buf) } : Shard)) sd0)
      = sd0 := by
    simp only [upsertEntry_of_not_found _ _ (compressBytes buf) hf0,
      removeFirstEntry_append_self sd0.entries tmpName
        ⟨tmpName, true, compressBytes buf⟩ rfl hf0]
  rw [modifyFirst_eq_of_fix _ _ _ sd0 hfind hfix]

/-! ## Claim theorems -/

/-- Claim C1, counterexample.  The claim says the publish rename fails when
the destination block file already exists, so an existing block file is
never overwritten.  In the source `compress_and_store` uses plain `persist`
(a clobbering rename, per its own comment), so storing `[42]` into a
directory that already holds a different file under that name atomically
replaces the existing contents. -/
theorem put_overwrites_existing_block :
    lookupEntry preExistingFs (subdir_for (hash_bytes [42])) (hash_bytes [42])
      = some ⟨hash_bytes [42], true, [255, 1]⟩ ∧
    lookupEntry (compress_and_store absCounters .ok preExistingFs [42]
        (hash_bytes [42]) []).fs (subdir_for (hash_bytes [42])) (hash_bytes [42])
      = some ⟨hash_bytes [42], true, [255, 42]⟩ ∧
    ([255, 1] : List Nat) ≠ [255, 42] := by
  decide

/-- Claim C1, amended.  `compress_and_store` publishes with a plain
clobbering persist: on a successful rename the destination holds the
compressed payload whatever was there before; when the rename reports
AlreadyExists the call still succeeds with the compressed length, deletes
its temp file (the filesystem is exactly as `ensure_dir_exists` left it),
counts `block.already_present` and emits the ui problem line; any other
rename error is returned as an error. -/
theorem put_persist_semantics (fs : BlockFs) (buf : List Nat) (h : String)
    (cnt : Counters) (hfresh : NoTmp fs) :
    (compress_and_store absCounters .errAlreadyExists fs buf h cnt).res
      = .ok (compressBytes buf).length ∧
    (compress_and_store absCounters .errAlreadyExists fs buf h cnt).fs
      = ensure_dir_exists fs (subdir_for h) ∧
    getCounter (compress_and_store absCounters .errAlreadyExists fs buf h cnt).cnt
        ("block.already_present")
      = getCounter cnt ("block.already_present") + 1 ∧
    (compress_and_store absCounters .errAlreadyExists fs buf h cnt).problems
      = [lateDetectMsg] ∧
    (compress_and_store absCounters .errOther fs buf h cnt).res = .ioErr ∧
    lookupEntry (compress_and_store absCounters .ok fs buf h cnt).fs
        (subdir_for h) h
      = some ⟨h, true, compressBytes buf⟩ := by
  refine ⟨rfl, already_exists_branch_fs absCounters fs buf h cnt hfresh rfl, ?_,
    rfl, rfl, lookup_after_store absCounters fs buf h cnt⟩
  show getCounter (incCounter cnt ("block.already_present") 1) _ = _
  exact getCounter_incCounter_self cnt ("block.already_present") 1

/-- Claim C1, witness for `put_persist_semantics` at a concrete input. -/
theorem put_persist_semantics_witness :
    NoTmp emptyFs ∧
    (compress_and_store absCounters .errAlreadyExists emptyFs [1, 2]
        (hash_bytes [1, 2]) []).res = .ok (compressBytes [1, 2]).length :=
  ⟨by intro sd hsd; simp [emptyFs] at hsd,
   (put_persist_semantics emptyFs [1, 2] (hash_bytes [1, 2]) []
     (by intro sd hsd; simp [emptyFs] at hsd)).1⟩

/-- Claim C2 (code bug).  Storing content through `store_file_content` with
the `Report` of report.rs panics at the very first counter update: the
counter names used by blockdir.rs (`block.write`, `block.already_present`,
`file.empty`, `file.medium`, `file.large`) are not in `KNOWN_COUNTERS`, and
`Report::increment` panics on an unregistered counter, so the counters can
never reach the claimed values. -/
theorem store_file_content_report_panics :
    (store_file_content reportCounters noErrEnv emptyFs Report.new [104, 105]).res
      = .panicked ("unregistered counter") ∧
    lookupCount Report.new.count ("block.write") = none ∧
    lookupCount Report.new.count ("block.already_present") = none := by
  decide

/-- Claim C5.  After a successful put of `s` under `hash_bytes s`,
`get_block_content (hash_bytes s)` returns exactly `s`, and the hash of the
returned bytes equals the name the block is stored under. -/
theorem get_content_roundtrip (fs : BlockFs) (s : List Nat) (cnt : Counters) :
    ∃ d sz,
      (get_block_content (compress_and_store absCounters .ok fs s (hash_bytes s) cnt).fs
          (hash_bytes s)).1 = .ok (d, sz) ∧
      d = s ∧ hash_bytes d = hash_bytes s := by
  have hl := lookup_after_store absCounters fs s (hash_bytes s) cnt
  refine ⟨s, ⟨s.length, (compressBytes s).length⟩, ?_, rfl, rfl⟩
  unfold get_block_content
  rw [show block_name_to_subdirectory (hash_bytes s) = subdir_for (hash_bytes s) from rfl,
    hl]
  simp [compressBytes, decompressBytes]

set_option maxRecDepth 20000 in
/-- Claim C3, counterexample.  On a directory whose single block file was
tampered with, `validate` does not return stats at all: it surfaces the
corruption as a BlockCorrupt error (and when `validate` does return stats
they are the default-constructed zeros, see `validate_ok_stats_default`). -/
theorem validate_tampered_returns_error_not_stats :
    (validate tamperedFs).1.isOk = false ∧
    (validate tamperedFs).1
      = .err (.blockCorrupt (path_for_file (hash_bytes [104, 105]))
          (hash_bytes [104, 104])) := by
  decide

/-- Claim C3, amended.  The source never updates the `stats` record of
`validate` (accumulation is a TODO there): whenever `validate` returns
stats, they are the default zeros; a tampered block instead surfaces as a
BlockCorrupt error. -/
theorem validate_ok_stats_default (fs : BlockFs) (st : ValidateBlockDirStats)
    (fs1 : BlockFs) (pr : List String)
    (hok : validate fs = (.ok st, fs1, pr)) : st = ⟨0, 0⟩ := by
  unfold validate at hok
  rcases hb : block_names_and_sizes fs with ⟨r, fs2, pr2⟩
  rw [hb] at hok
  cases r with
  | ok bns =>
      rcases hp : validate_blocks_pass fs2 bns with ⟨r2, pr3⟩
      dsimp only at hok
      rw [hp] at hok
      cases r2 with
      | ok u => simp at hok; exact hok.1.symm
      | err e => simp at hok
      | panicked m => simp at hok
  | err e => simp at hok
  | panicked m => simp at hok

set_option maxRecDepth 20000 in
/-- Claim C3, witness for `validate_ok_stats_default`: a directory produced
by a correct store validates to the default stats. -/
theorem validate_ok_stats_default_witness :
    validate goodFs = (.ok ⟨0, 0⟩, goodFs, []) ∧
    (⟨0, 0⟩ : ValidateBlockDirStats) = ⟨0, 0⟩ :=
  ⟨by decide, validate_ok_stats_default goodFs ⟨0, 0⟩ goodFs [] (by decide)⟩

/-- Claim C4, counterexample.  `get` with a nonzero `start`, or with a `len`
different from the decompressed length, hits the `todo` panic of the
source; it does not return the distinct UnsupportedPartialRead error (nor
any data). -/
theorem get_partial_read_panics_not_error :
    (get goodFs ⟨hash_bytes [104, 105], 1, 2⟩).1 = .panicked todoMsg ∧
    (get goodFs ⟨hash_bytes [104, 105], 0, 5⟩).1 = .panicked todoMsg ∧
    (RResult.panicked todoMsg : RResult (List Nat × Sizes))
      ≠ .err .unsupportedPartialRead := by
  decide

/-- Claim C4, amended.  For an address with nonzero `start`, or whose `len`
differs from the decompressed length of a readable block, `get` panics with
the `todo` message instead of returning data (no UnsupportedPartialRead
error value is ever produced). -/
theorem get_partial_read_panics (fs : BlockFs) (addr : Address) :
    (addr.start ≠ 0 → (get fs addr).1 = .panicked todoMsg) ∧
    (∀ d sz fs1 pr, get_block_content fs addr.hash = (.ok (d, sz), fs1, pr) →
      d.length ≠ addr.len → (get fs addr).1 = .panicked todoMsg) := by
  constructor
  · intro hs
    simp [get, hs]
  · intro d sz fs1 pr hg hlen
    by_cases hs : addr.start = 0
    · simp only [get, hs, ne_eq, not_true_eq_false, if_false, hg, if_neg]
      simp [hlen]
    · simp [get, hs]

/-- Claim C4, witness for `get_partial_read_panics` at a concrete input. -/
theorem get_partial_read_panics_witness :
    (get goodFs ⟨hash_bytes [104, 105], 3, 2⟩).1 = .panicked todoMsg :=
  (get_partial_read_panics goodFs ⟨hash_bytes [104, 105], 3, 2⟩).1 (by decide)

/-- Claim C7, counterexample.  An error opening a single shard directory is
not logged and skipped: the `unwrap` in `iter_block_dir_entries` panics,
failing the whole validation. -/
theorem validate_shard_open_error_panics :
    (validate ⟨true, [⟨"abc", false, []⟩]⟩).1 = .panicked unwrapMsg ∧
    (validate ⟨true, [⟨"abc", false, []⟩]⟩).1.isOk = false := by
  decide

/-- Claim C7, amended.  An enumeration error at the block directory root
aborts `validate` with a ListBlocks error; an error opening a single kept
shard directory panics (the per-shard `read_dir` result is unwrapped)
instead of being logged and skipped. -/
theorem validate_enumeration_error_handling (fs : BlockFs) :
    (fs.rootReadable = false → validate fs = (.err (.listBlocks rootPath), fs, [])) ∧
    (fs.rootReadable = true →
      (∃ s ∈ fs.shards.map (fun sd => sd.name), s.length = SUBDIR_NAME_CHARS ∧
        read_shard_dir fs s = none) →
      (validate fs).1 = .panicked unwrapMsg) := by
  constructor
  · intro hroot
    simp [validate, block_names_and_sizes, iter_block_dir_entries, subdirs, hroot]
  · intro hroot hex
    rcases hex with ⟨s, hs, hlen, hnone⟩
    have hkept : s ∈ (fs.shards.map (fun sd => sd.name)).filter
        (fun dd => decide (dd.length = SUBDIR_NAME_CHARS)) :=
      List.mem_filter.mpr ⟨hs, by simp [hlen]⟩
    have hall : ((fs.shards.map (fun sd => sd.name)).filter
        (fun dd => decide (dd.length = SUBDIR_NAME_CHARS))).all
        (fun s => (read_shard_dir fs s).isSome) = false := by
      rw [Bool.eq_false_iff]
      intro hc
      have := List.all_eq_true.mp hc s hkept
      rw [hnone] at this
      simp at this
    simp [validate, block_names_and_sizes, iter_block_dir_entries, subdirs, hroot, hall]

/-- Claim C7, witness for `validate_enumeration_error_handling` at concrete
inputs for both parts. -/
theorem validate_enumeration_error_handling_witness :
    validate ⟨false, []⟩ = (.err (.listBlocks rootPath), ⟨false, []⟩, []) ∧
    (validate ⟨true, [⟨"abc", false, []⟩, ⟨"abd", true, []⟩]⟩).1 = .panicked unwrapMsg :=
  ⟨(validate_enumeration_error_handling ⟨false, []⟩).1 rfl,
   (validate_enumeration_error_handling ⟨true, [⟨"abc", false, []⟩, ⟨"abd", true, []⟩]⟩).2
     rfl ⟨"abc", by decide, by decide, by decide⟩⟩

/-- The matching loop never hits an out-of-range index when every visited
index is below the length of `subtree`. -/
theorem matchedLoop_isSome (tt st : List String) (m : Nat) (is : List Nat)
    (h : ∀ i ∈ is, i < st.length) : matchedLoop tt st m is ≠ none := by
  induction is generalizing m with
  | nil => simp [matchedLoop]
  | cons i is ih =>
      have hi : i < st.length := h i (List.mem_cons_self _ _)
      cases hg : st.get? i with
      | none =>
          rw [List.get?_eq_none] at hg
          omega
      | some sv =>
          simp only [matchedLoop, hg]
          exact ih _ (fun j hj => h j (List.mem_cons_of_mem _ hj))

/-- The subtree filter never performs an out-of-range index access: the
matching loop is guarded by `subtree.len() >= target_tree.len()`. -/
theorem to_be_copied_isSome (target apath : String) :
    to_be_copied target apath ≠ none := by
  unfold to_be_copied
  by_cases ht : target = ""
  · simp [ht]
  · rw [if_neg ht]
    by_cases hge : (splitSlash apath).length ≥ (splitSlash target).length
    · rw [if_pos hge]
      have hm := matchedLoop_isSome (splitSlash target) (splitSlash apath) 0
        (List.range (splitSlash target).length)
        (fun i hi => lt_of_lt_of_le (List.mem_range.mp hi) hge)
      cases hml : matchedLoop (splitSlash target) (splitSlash apath) 0
          (List.range (splitSlash target).length) with
      | none => exact absurd hml hm
      | some matched => simp [hml]
    · rw [if_neg hge]
      simp

/-- Claim C9, refutation.  The claim asserts that for some entry and target
the subtree filter indexes out of range; in the source the matching loop is
guarded by `subtree.len() >= target_tree.len()`, so no index access is ever
out of range, for any entry and any target. -/
theorem copy_filter_never_out_of_range :
    ¬ ∃ target apath, to_be_copied target apath = none :=
  fun ⟨target, apath, hnone⟩ => to_be_copied_isSome target apath hnone

/-- Claim C9, amended.  The matching loop runs only under the guard
`subtree.len() >= target_tree.len()`; an entry whose path has fewer
components than the non-empty target is simply not selected, with no
out-of-range access. -/
theorem copy_filter_short_path_not_selected (target apath : String)
    (hne : target ≠ "")
    (hlt : (splitSlash apath).length < (splitSlash target).length) :
    to_be_copied target apath = some false := by
  unfold to_be_copied
  rw [if_neg hne, if_neg (not_le.mpr hlt)]

/-- Claim C9, witness for `copy_filter_short_path_not_selected` at the
concrete scenario of the claim (entry path shorter than the target). -/
theorem copy_filter_short_path_not_selected_witness :
    ("a/b" : String) ≠ "" ∧ to_be_copied ("a/b") ("a") = some false :=
  ⟨by decide, copy_filter_short_path_not_selected ("a/b") ("a") (by decide) (by decide)⟩

/-- Claim C8, counterexample.  For the empty stream (length 0, which is at
most `MAX_BLOCK_SIZE`) `store_file_content` returns no address at all,
not one address of length 0. -/
theorem store_empty_stream_returns_no_address :
    resultAddresses (store_file_content absCounters noErrEnv emptyFs [] []) = some [] ∧
    some ([] : List Address) ≠ some [⟨hash_bytes [], 0, 0⟩] := by
  decide

/-- Claim C8, amended.  For a nonempty stream of length `L ≤ MAX_BLOCK_SIZE`,
`store_file_content` returns exactly one address, with `start = 0` and
`len = L`. -/
theorem store_single_block_address (fs : BlockFs) (cnt : Counters)
    (input : List Nat) (h1 : 1 ≤ input.length)
    (h2 : input.length ≤ MAX_BLOCK_SIZE) :
    resultAddresses (store_file_content absCounters noErrEnv fs cnt input)
      = some [⟨hash_bytes input, 0, input.length⟩] := by
  rcases input with _ | ⟨b, rest⟩
  · simp at h1
  · have htake : (b :: rest).take MAX_BLOCK_SIZE = b :: rest :=
      List.take_of_length_le h2
    have hdrop : (b :: rest).drop MAX_BLOCK_SIZE = [] :=
      List.drop_eq_nil_of_le h2
    unfold store_file_content
    simp only [List.length_cons]
    cases hl : lookupEntry fs (block_name_to_subdirectory (hash_bytes (b :: rest)))
        (hash_bytes (b :: rest)) with
    | some e =>
        simp [store_loop, htake, hdrop, contains, hl, absCounters, resultAddresses]
    | none =>
        simp [store_loop, htake, hdrop, contains, hl, absCounters, noErrEnv,
          compress_and_store, resultAddresses]

set_option maxRecDepth 20000 in
/-- Claim C8, witness for `store_single_block_address` at a concrete
one-byte stream. -/
theorem store_single_block_address_witness :
    1 ≤ ([7] : List Nat).length ∧
    resultAddresses (store_file_content absCounters noErrEnv emptyFs [] [7])
      = some [⟨hash_bytes [7], 0, 1⟩] :=
  ⟨by decide, store_single_block_address emptyFs [] [7] (by decide) (by decide)⟩

/-- On a real directory no two entries share a name; every kept shard can be
opened under the readability hypothesis. -/
theorem kept_shards_readable (fs : BlockFs)
    (hread : ∀ sd ∈ fs.shards, sd.name.length = SUBDIR_NAME_CHARS → sd.readable = true) :
    ((fs.shards.map (fun sd => sd.name)).filter
      (fun dd => decide (dd.length = SUBDIR_NAME_CHARS))).all
      (fun s => (read_shard_dir fs s).isSome) = true := by
  rw [List.all_eq_true]
  intro s hs
  rcases List.mem_filter.mp hs with ⟨hmem, hdec⟩
  have hlen : s.length = SUBDIR_NAME_CHARS := by simpa using hdec
  have hsome := findShardL_isSome_of_name_mem fs.shards s hmem
  rcases Option.isSome_iff_exists.mp hsome with ⟨sd', hfind⟩
  rcases findShardL_mem fs.shards s sd' hfind with ⟨hmem', hname⟩
  have hr := hread sd' hmem' (by rw [hname]; exact hlen)
  simp [read_shard_dir, findShard, hfind, hr]

/-- Claim C6.  On a listable root whose shard names are distinct and whose
3-character shards are all openable, `block_names` succeeds and yields
exactly the names of the regular files under 3-character shard directories
whose names have exactly 128 characters and are not tmp-named; every
subdirectory of the root whose name length is not 3 is skipped with a
warning through the UI collaborator and does not fail enumeration. -/
theorem block_names_enumeration (fs : BlockFs)
    (hroot : fs.rootReadable = true)
    (hnodup : (fs.shards.map (fun sd => sd.name)).Nodup)
    (hread : ∀ sd ∈ fs.shards, sd.name.length = SUBDIR_NAME_CHARS → sd.readable = true) :
    ∃ ns ws, block_names fs = (.ok ns, fs, ws) ∧
      (∀ b, b ∈ ns ↔ ∃ sd ∈ fs.shards, sd.name.length = SUBDIR_NAME_CHARS ∧
        ∃ e ∈ sd.entries, isBlockFileEntry e = true ∧ e.name = b) ∧
      (∀ sd ∈ fs.shards, sd.name.length ≠ SUBDIR_NAME_CHARS →
        ("unexpected subdirectory in blockdir: " ++ sd.name) ∈ ws) := by
  have hall := kept_shards_readable fs hread
  refine ⟨(((fs.shards.map (fun sd => sd.name)).filter
        (fun dd => decide (dd.length = SUBDIR_NAME_CHARS))).map
        (fun s => List.filter isBlockFileEntry ((read_shard_dir fs s).getD []))).flatten.map
        (fun e => e.name),
      ((fs.shards.map (fun sd => sd.name)).filter
        (fun dd => decide (¬ dd.length = SUBDIR_NAME_CHARS))).map
        (fun dd => "unexpected subdirectory in blockdir: " ++ dd),
      ?_, ?_, ?_⟩
  · unfold block_names iter_block_dir_entries subdirs
    rw [hroot]
    simp only [if_true, hall]
  · intro b
    constructor
    · intro hb
      rcases List.mem_map.mp hb with ⟨e, he, rfl⟩
      rcases List.mem_flatten.mp he with ⟨l', hl', hel⟩
      rcases List.mem_map.mp hl' with ⟨s, hs, rfl⟩
      rcases List.mem_filter.mp hs with ⟨hmem, hdec⟩
      have hlen : s.length = SUBDIR_NAME_CHARS := by simpa using hdec
      rcases Option.isSome_iff_exists.mp
        (findShardL_isSome_of_name_mem fs.shards s hmem) with ⟨sd', hfind⟩
      rcases findShardL_mem fs.shards s sd' hfind with ⟨hmem', hname⟩
      have hr := hread sd' hmem' (by rw [hname]; exact hlen)
      rw [show read_shard_dir fs s = some sd'.entries by
        simp [read_shard_dir, findShard, hfind, hr]] at hel
      rcases List.mem_filter.mp (by simpa using hel) with ⟨hee, hpe⟩
      exact ⟨sd', hmem', by rw [hname]; exact hlen, e, hee, hpe, rfl⟩
    · rintro ⟨sd, hmem, hlen, e, hee, hpe, rfl⟩
      have hkept : sd.name ∈ (fs.shards.map (fun sd => sd.name)).filter
          (fun dd => decide (dd.length = SUBDIR_NAME_CHARS)) :=
        List.mem_filter.mpr ⟨List.mem_map.mpr ⟨sd, hmem, rfl⟩, by simp [hlen]⟩
      have hfind := findShardL_eq_of_nodup fs.shards sd hnodup hmem
      have hr := hread sd hmem hlen
      refine List.mem_map.mpr ⟨e, List.mem_flatten.mpr
        ⟨List.filter isBlockFileEntry ((read_shard_dir fs sd.name).getD []),
         List.mem_map.mpr ⟨sd.name, hkept, rfl⟩, ?_⟩, rfl⟩
      rw [show read_shard_dir fs sd.name = some sd.entries by
        simp [read_shard_dir, findShard, hfind, hr]]
      exact List.mem_filter.mpr ⟨hee, hpe⟩
  · intro sd hmem hlen
    exact List.mem_map.mpr ⟨sd.name,
      List.mem_filter.mpr ⟨List.mem_map.mpr ⟨sd, hmem, rfl⟩, by simp [hlen]⟩, rfl⟩

set_option maxRecDepth 40000 in
/-- Claim C6, witness for `block_names_enumeration` on a concrete directory
with one proper shard (holding a block file and a tmp file) and one
unexpected two-character subdirectory. -/
theorem block_names_enumeration_witness :
    enumExampleFs.rootReadable = true ∧
    (enumExampleFs.shards.map (fun sd => sd.name)).Nodup ∧
    (∀ sd ∈ enumExampleFs.shards,
      sd.name.length = SUBDIR_NAME_CHARS → sd.readable = true) ∧
    (∃ ns ws, block_names enumExampleFs = (.ok ns, enumExampleFs, ws) ∧
      (∀ b, b ∈ ns ↔ ∃ sd ∈ enumExampleFs.shards,
        sd.name.length = SUBDIR_NAME_CHARS ∧
        ∃ e ∈ sd.entries, isBlockFileEntry e = true ∧ e.name = b) ∧
      (∀ sd ∈ enumExampleFs.shards, sd.name.length ≠ SUBDIR_NAME_CHARS →
        ("unexpected subdirectory in blockdir: " ++ sd.name) ∈ ws)) :=
  ⟨by decide, by decide, by decide,
   block_names_enumeration enumExampleFs (by decide) (by decide) (by decide)⟩

/-- `contains` leaves the filesystem untouched. -/
theorem contains_fs_eq (fs : BlockFs) (h : String) : (contains fs h).2 = fs := by
  unfold contains
  cases lookupEntry fs (block_name_to_subdirectory h) h <;> rfl

/-- `get_block_content` leaves the filesystem untouched. -/
theorem get_block_content_fs_eq (fs : BlockFs) (h : String) :
    (get_block_content fs h).2.1 = fs := by
  unfold get_block_content
  cases lookupEntry fs (block_name_to_subdirectory h) h with
  | none => rfl
  | some e =>
      by_cases hf : e.isFile
      · simp only [hf, if_true]
        cases decompressBytes e.content <;> rfl
      · simp [hf]

/-- `iter_block_dir_entries` leaves the filesystem untouched. -/
theorem iter_fs_eq (fs : BlockFs) : (iter_block_dir_entries fs).2.1 = fs := by
  unfold iter_block_dir_entries subdirs
  by_cases hr : fs.rootReadable
  · simp only [hr, if_true]
    split <;> rfl
  · simp [hr]

/-- `block_names` leaves the filesystem untouched. -/
theorem block_names_fs_eq (fs : BlockFs) : (block_names fs).2.1 = fs := by
  have hi := iter_fs_eq fs
  unfold block_names
  rcases h : iter_block_dir_entries fs with ⟨r, fs1, w⟩
  rw [h] at hi
  cases r <;> simpa using hi

/-- `block_names_and_sizes` leaves the filesystem untouched. -/
theorem block_names_and_sizes_fs_eq (fs : BlockFs) :
    (block_names_and_sizes fs).2.1 = fs := by
  have hi := iter_fs_eq fs
  unfold block_names_and_sizes
  rcases h : iter_block_dir_entries fs with ⟨r, fs1, w⟩
  rw [h] at hi
  cases r <;> simpa using hi

/-- `validate` leaves the filesystem untouched. -/
theorem validate_fs_eq (fs : BlockFs) : (validate fs).2.1 = fs := by
  have hb := block_names_and_sizes_fs_eq fs
  unfold validate
  rcases h : block_names_and_sizes fs with ⟨r, fs1, w⟩
  rw [h] at hb
  cases r with
  | ok bns =>
      dsimp only
      rcases hp : validate_blocks_pass fs1 bns with ⟨r2, pr3⟩
      cases r2 <;> simpa using hb
  | err e => simpa using hb
  | panicked m => simpa using hb

/-- Claim C10.  The read-only operations — `contains`, `get`,
`get_block_content`, `block_names` and `validate` — never create, modify or
delete anything under the block directory root: the filesystem state after
each call is exactly the state before it. -/
theorem read_ops_preserve_state (fs : BlockFs) (hash : String) (addr : Address) :
    (contains fs hash).2 = fs ∧
    (get_block_content fs hash).2.1 = fs ∧
    (get fs addr).2.1 = fs ∧
    (block_names fs).2.1 = fs ∧
    (validate fs).2.1 = fs := by
  refine ⟨contains_fs_eq fs hash, get_block_content_fs_eq fs hash, ?_,
    block_names_fs_eq fs, validate_fs_eq fs⟩
  have hg := get_block_content_fs_eq fs addr.hash
  unfold get
  by_cases hs : addr.start ≠ 0
  · simp [hs]
  · simp only [hs, if_false]
    rcases h : get_block_content fs addr.hash with ⟨r, fs1, pr⟩
    rw [h] at hg
    rcases r with ⟨d, sz⟩ | e | m
    · dsimp only
      by_cases hlen : d.length ≠ addr.len
      · simpa [hlen] using hg
      · simpa [hlen] using hg
    · simpa using hg
    · simpa using hg

end Conserve
